import Mathlib

/-!
Shallow embedding of the fixed-window rate limiter from
`src/middleware/auth.js` (class `RateLimiter`), together with proofs of the
behavioural properties claimed for it.

Modelling conventions: timestamps and the window size are `Int`
(milliseconds, as produced by `Date.now()`); request counts and limits are
`Nat`; the `Map` used as the counter store is an association list with
unique keys; JavaScript truthiness of the `id` and `type` strings (where
the empty string is falsy) is modelled explicitly.
-/

structure User where
  type : String
  id : Option String
  deriving DecidableEq

structure WindowState where
  count : Nat
  windowStart : Int
  deriving DecidableEq

structure Limits where
  guest : Nat
  free : Nat
  premium : Nat
  deriving DecidableEq

structure Config where
  limits : Limits
  windowSize : Int
  deriving DecidableEq

structure CheckResult where
  allowed : Bool
  remaining : Nat
  total : Nat
  resetTime : Int
  userType : String
  deriving DecidableEq

structure StatusResult where
  remaining : Nat
  total : Nat
  resetTime : Int
  userType : String
  deriving DecidableEq

/-- The counter store: `this.storage`, a `Map` from key to window state,
modelled as an association list with unique keys. -/
abbrev Store := List (String × WindowState)

def Store.get : Store → String → Option WindowState
  | [], _ => none
  | (k, v) :: rest, key => if k = key then some v else Store.get rest key

def Store.set : Store → String → WindowState → Store
  | [], key, v => [(key, v)]
  | (k, w) :: rest, key, v =>
      if k = key then (k, v) :: rest else (k, w) :: Store.set rest key v

def Store.delete : Store → String → Store
  | [], _ => []
  | (k, w) :: rest, key =>
      if k = key then Store.delete rest key else (k, w) :: Store.delete rest key

/-- Keys of a JavaScript `Map` are unique. -/
def Store.WF (s : Store) : Prop := (s.map Prod.fst).Nodup

instance (s : Store) : Decidable (Store.WF s) := by
  unfold Store.WF
  infer_instance

/-- JavaScript truthiness of `user.id`: null/undefined and the empty string
are falsy. -/
def idTruthy : Option String → Bool
  | some s => !(s == "")
  | none => false

/-- The expression `user?.type || 'guest'` used by `getLimit`, `checkLimit`
and `getStatus`. -/
def userTypeOf : Option User → String
  | some u => if u.type = "" then "guest" else u.type
  | none => "guest"

/-- `getKey(user, ip)`: `user && user.type !== 'guest' && user.id` selects
the `user:` key, otherwise the `ip:` key. -/
def getKey (user : Option User) (ip : String) : String :=
  match user with
  | some u =>
      match u.id with
      | some s => if u.type ≠ "guest" ∧ s ≠ "" then "user:" ++ s else "ip:" ++ ip
      | none => "ip:" ++ ip
  | none => "ip:" ++ ip

/-- The fixed object literal `this.limits` read as `this.limits[userType]`:
only the three known tiers are present. -/
def lookupLimit (limits : Limits) (t : String) : Option Nat :=
  if t = "guest" then some limits.guest
  else if t = "free" then some limits.free
  else if t = "premium" then some limits.premium
  else none

/-- `getLimit(user)`: `this.limits[userType] || this.limits.guest`, where a
zero entry is falsy and also falls back to the guest limit. -/
def getLimit (limits : Limits) (user : Option User) : Nat :=
  match lookupLimit limits (userTypeOf user) with
  | some n => if n = 0 then limits.guest else n
  | none => limits.guest

/-- `checkLimit(user, ip)` at time `now`: returns the admission result and
the updated store. -/
def checkLimit (cfg : Config) (storage : Store) (user : Option User)
    (ip : String) (now : Int) : CheckResult × Store :=
  let key := getKey user ip
  let limit := getLimit cfg.limits user
  let step1 : WindowState × Store :=
    match Store.get storage key with
    | some w =>
        if cfg.windowSize ≤ now - w.windowStart then
          (⟨0, now⟩, Store.set storage key ⟨0, now⟩)
        else (w, storage)
    | none => (⟨0, now⟩, Store.set storage key ⟨0, now⟩)
  let windowData := step1.1
  let storage1 := step1.2
  let remaining : Nat := limit - windowData.count
  let allowed : Bool := decide (windowData.count < limit)
  let storage2 : Store :=
    if allowed then
      Store.set storage1 key ⟨windowData.count + 1, windowData.windowStart⟩
    else storage1
  (⟨allowed, if allowed then remaining - 1 else remaining, limit,
      windowData.windowStart + cfg.windowSize, userTypeOf user⟩,
   storage2)

/-- `getStatus(user, ip)` at time `now`: read-only, returns a status and
performs no store update. -/
def getStatus (cfg : Config) (storage : Store) (user : Option User)
    (ip : String) (now : Int) : StatusResult :=
  let key := getKey user ip
  let limit := getLimit cfg.limits user
  match Store.get storage key with
  | some w =>
      if cfg.windowSize ≤ now - w.windowStart then
        ⟨limit, limit, now + cfg.windowSize, userTypeOf user⟩
      else
        ⟨limit - w.count, limit, w.windowStart + cfg.windowSize, userTypeOf user⟩
  | none => ⟨limit, limit, now + cfg.windowSize, userTypeOf user⟩

/-- `cleanup()` at time `now`: collects every key whose window has fully
expired, then deletes them. -/
def cleanup (cfg : Config) (storage : Store) (now : Int) : Store :=
  let keysToDelete :=
    (storage.filter (fun kv => cfg.windowSize ≤ now - kv.2.windowStart)).map Prod.fst
  keysToDelete.foldl Store.delete storage

/-- `reset(user, ip)`: deletes the derived key's entry. -/
def reset (storage : Store) (user : Option User) (ip : String) : Store :=
  Store.delete storage (getKey user ip)

/-- A sequence of consecutive `checkLimit` calls for one caller, returning
the final store and the list of results in order. -/
def runChecks (cfg : Config) (user : Option User) (ip : String) :
    Store → List Int → Store × List CheckResult
  | s, [] => (s, [])
  | s, t :: ts =>
      let step := checkLimit cfg s user ip t
      let rest := runChecks cfg user ip step.2 ts
      (rest.1, step.1 :: rest.2)

/-- One operation against the engine. -/
inductive Op where
  | check (user : Option User) (ip : String) (now : Int)
  | status (user : Option User) (ip : String) (now : Int)
  | reset (user : Option User) (ip : String)
  | clean (now : Int)
  deriving DecidableEq

/-- The store after one operation; `getStatus` performs no writes. -/
def stepStore (cfg : Config) (s : Store) : Op → Store
  | .check user ip now => (checkLimit cfg s user ip now).2
  | .status _ _ _ => s
  | .reset user ip => reset s user ip
  | .clean now => cleanup cfg s now

def runOps (cfg : Config) : Store → List Op → Store
  | s, [] => s
  | s, op :: ops => runOps cfg (stepStore cfg s op) ops

/-- The limit used by the last `checkLimit` operation in `ops` whose derived
key is `k`, if any. -/
def lastCheckLimitFor (cfg : Config) (k : String) (ops : List Op) : Option Nat :=
  ops.foldl
    (fun acc op =>
      match op with
      | .check user ip _ => if getKey user ip = k then some (getLimit cfg.limits user) else acc
      | _ => acc)
    none

theorem Store.get_set_self (s : Store) (k : String) (v : WindowState) :
    Store.get (Store.set s k v) k = some v := by
  induction s with
  | nil => simp [Store.set, Store.get]
  | cons kv rest ih =>
      obtain ⟨k', w⟩ := kv
      by_cases h : k' = k <;> simp [Store.set, Store.get, h, ih]

theorem Store.get_set_ne (s : Store) (k k' : String) (v : WindowState)
    (h : k' ≠ k) : Store.get (Store.set s k v) k' = Store.get s k' := by
  have h' : ¬ k = k' := fun hh => h hh.symm
  induction s with
  | nil => simp [Store.set, Store.get, h']
  | cons kv rest ih =>
      obtain ⟨k0, w⟩ := kv
      by_cases h0 : k0 = k
      · have h1 : ¬ k0 = k' := fun hh => h' (h0 ▸ hh)
        simp [Store.set, Store.get, h0, h1, h']
      · simp [Store.set, Store.get, h0, ih]

theorem Store.set_set (s : Store) (k : String) (v v' : WindowState) :
    Store.set (Store.set s k v) k v' = Store.set s k v' := by
  induction s with
  | nil => simp [Store.set]
  | cons kv rest ih =>
      obtain ⟨k0, w⟩ := kv
      by_cases h0 : k0 = k <;> simp [Store.set, h0, ih]

theorem Store.get_delete (s : Store) (k k' : String) :
    Store.get (Store.delete s k') k = if k = k' then none else Store.get s k := by
  induction s with
  | nil => simp [Store.delete, Store.get]
  | cons kv rest ih =>
      obtain ⟨k0, w⟩ := kv
      by_cases h0 : k0 = k'
      · by_cases h1 : k = k'
        · subst h1
          simp [Store.delete, Store.get, h0, ih]
        · have h2 : ¬ k0 = k := fun hh => h1 (hh ▸ h0)
          have h3 : ¬ k' = k := fun hh => h1 hh.symm
          simp [Store.delete, Store.get, h0, h1, h2, h3, ih]
      · by_cases h1 : k0 = k
        · have h2 : ¬ k = k' := fun hh => h0 (h1.trans hh)
          simp [Store.delete, Store.get, h0, h1, h2, ih]
        · simp [Store.delete, Store.get, h0, h1, ih]

theorem Store.delete_absent (s : Store) (k : String)
    (h : Store.get s k = none) : Store.delete s k = s := by
  induction s with
  | nil => simp [Store.delete]
  | cons kv rest ih =>
      obtain ⟨k0, w⟩ := kv
      by_cases h0 : k0 = k
      · simp [Store.get, h0] at h
      · simp [Store.get, h0] at h
        simp [Store.delete, h0, ih h]

theorem Store.delete_delete (s : Store) (k : String) :
    Store.delete (Store.delete s k) k = Store.delete s k := by
  induction s with
  | nil => simp [Store.delete]
  | cons kv rest ih =>
      obtain ⟨k0, w⟩ := kv
      by_cases h0 : k0 = k <;> simp [Store.delete, h0, ih]

theorem Store.get_mem (s : Store) (k : String) (w : WindowState)
    (h : Store.get s k = some w) : (k, w) ∈ s := by
  induction s with
  | nil => simp [Store.get] at h
  | cons kv rest ih =>
      obtain ⟨k0, w0⟩ := kv
      by_cases h0 : k0 = k
      · subst h0
        simp [Store.get] at h
        simp [h]
      · simp [Store.get, h0] at h
        simp [ih h]

theorem Store.mem_get_of_wf (s : Store) (k : String) (w : WindowState)
    (hwf : Store.WF s) (h : (k, w) ∈ s) : Store.get s k = some w := by
  induction s with
  | nil => simp at h
  | cons kv rest ih =>
      obtain ⟨k0, w0⟩ := kv
      have hwf' : Store.WF rest := by
        have := (List.nodup_cons.mp hwf).2
        exact this
      rcases List.mem_cons.mp h with h1 | h1
      · rw [Prod.ext_iff] at h1
        obtain ⟨hk, hw⟩ := h1
        simp at hk hw
        subst hk
        simp [Store.get, hw]
      · have hk0 : k0 ≠ k := by
          intro hk0
          subst hk0
          have : k0 ∈ rest.map Prod.fst := List.mem_map.mpr ⟨(k0, w), h1, rfl⟩
          exact (List.nodup_cons.mp hwf).1 this
        simp [Store.get, hk0, ih hwf' h1]

theorem Store.get_none_not_mem (s : Store) (k : String) (w : WindowState)
    (h : Store.get s k = none) : (k, w) ∉ s := by
  induction s with
  | nil => simp
  | cons kv rest ih =>
      obtain ⟨k0, w0⟩ := kv
      by_cases h0 : k0 = k
      · simp [Store.get, h0] at h
      · simp [Store.get, h0] at h
        simp [ih h]
        intro hk
        exact absurd hk.symm h0

theorem checkLimit_active (cfg : Config) (s : Store) (user : Option User)
    (ip : String) (now : Int) (c : Nat) (t0 : Int)
    (hget : Store.get s (getKey user ip) = some ⟨c, t0⟩)
    (hin : now - t0 < cfg.windowSize) :
    checkLimit cfg s user ip now =
      (⟨decide (c < getLimit cfg.limits user),
        if c < getLimit cfg.limits user then getLimit cfg.limits user - (c + 1)
        else getLimit cfg.limits user - c,
        getLimit cfg.limits user, t0 + cfg.windowSize, userTypeOf user⟩,
       if c < getLimit cfg.limits user then
         Store.set s (getKey user ip) ⟨c + 1, t0⟩
       else s) := by
  have hcond : ¬ cfg.windowSize ≤ now - t0 := not_le.mpr hin
  simp only [checkLimit, hget, hcond, if_false]
  by_cases hc : c < getLimit cfg.limits user
  · simp [hc, Prod.mk.injEq, CheckResult.mk.injEq]
    omega
  · simp [hc]

theorem checkLimit_new (cfg : Config) (s : Store) (user : Option User)
    (ip : String) (now : Int)
    (hnew : Store.get s (getKey user ip) = none ∨
      ∃ w, Store.get s (getKey user ip) = some w ∧
        cfg.windowSize ≤ now - w.windowStart) :
    checkLimit cfg s user ip now =
      (⟨decide (0 < getLimit cfg.limits user),
        if 0 < getLimit cfg.limits user then getLimit cfg.limits user - 1
        else getLimit cfg.limits user,
        getLimit cfg.limits user, now + cfg.windowSize, userTypeOf user⟩,
       Store.set s (getKey user ip)
         ⟨if 0 < getLimit cfg.limits user then 1 else 0, now⟩) := by
  rcases hnew with hget | ⟨w, hget, hexp⟩
  · simp only [checkLimit, hget]
    by_cases hc : 0 < getLimit cfg.limits user
    · simp [hc, Store.set_set]
    · simp [hc, Nat.le_zero.mp (not_lt.mp hc)]
  · simp only [checkLimit, hget, hexp, if_true]
    by_cases hc : 0 < getLimit cfg.limits user
    · simp [hc, Store.set_set]
    · simp [hc, Nat.le_zero.mp (not_lt.mp hc)]

/-- The result of the call that observes `j` previous admissions in the
current window. -/
def nthResult (cfg : Config) (user : Option User) (t0 : Int) (j : Nat) : CheckResult :=
  ⟨decide (j < getLimit cfg.limits user),
   if j < getLimit cfg.limits user then getLimit cfg.limits user - (j + 1)
   else getLimit cfg.limits user - j,
   getLimit cfg.limits user, t0 + cfg.windowSize, userTypeOf user⟩

theorem nthResult_saturated (cfg : Config) (user : Option User) (t0 : Int)
    (j j' : Nat) (hj : getLimit cfg.limits user ≤ j)
    (hj' : getLimit cfg.limits user ≤ j') :
    nthResult cfg user t0 j = nthResult cfg user t0 j' := by
  simp [nthResult, not_lt.mpr hj, not_lt.mpr hj', Nat.sub_eq_zero_of_le hj,
    Nat.sub_eq_zero_of_le hj', Nat.le_of_lt_succ, not_lt.mpr (le_trans hj (Nat.le_succ j)),
    not_lt.mpr (le_trans hj' (Nat.le_succ j'))]

/-- The expected results of `n` consecutive in-window calls, the first of
which observes `c` previous admissions. -/
def nthResults (cfg : Config) (user : Option User) (t0 : Int) : Nat → Nat → List CheckResult
  | _, 0 => []
  | c, n + 1 => nthResult cfg user t0 c :: nthResults cfg user t0 (c + 1) n

theorem nthResults_shift (cfg : Config) (user : Option User) (t0 : Int) (n : Nat) :
    ∀ c, getLimit cfg.limits user ≤ c →
      nthResults cfg user t0 c n = nthResults cfg user t0 (c + 1) n := by
  induction n with
  | zero => intro c _; rfl
  | succ n ih =>
      intro c hc
      simp only [nthResults]
      rw [nthResult_saturated cfg user t0 c (c + 1) hc (by omega), ih (c + 1) (by omega)]

theorem nthResults_all_allowed (cfg : Config) (user : Option User) (t0 : Int) (n : Nat) :
    ∀ c, c + n ≤ getLimit cfg.limits user →
      ∀ r ∈ nthResults cfg user t0 c n, r.allowed = true := by
  induction n with
  | zero => intro c _ r hr; simp [nthResults] at hr
  | succ n ih =>
      intro c hc r hr
      simp only [nthResults, List.mem_cons] at hr
      rcases hr with h | h
      · subst h
        have hlt : c < getLimit cfg.limits user := by omega
        simp [nthResult, hlt]
      · exact ih (c + 1) (by omega) r h

theorem nthResults_getLast (cfg : Config) (user : Option User) (t0 : Int) (n : Nat) :
    ∀ c, (nthResults cfg user t0 c (n + 1)).getLast? =
      some (nthResult cfg user t0 (c + n)) := by
  induction n with
  | zero => intro c; simp [nthResults]
  | succ n ih =>
      intro c
      show (nthResult cfg user t0 c :: nthResult cfg user t0 (c + 1) ::
        nthResults cfg user t0 (c + 2) n).getLast? = _
      rw [List.getLast?_cons_cons]
      have hstep : (nthResult cfg user t0 (c + 1) :: nthResults cfg user t0 (c + 2) n) =
          nthResults cfg user t0 (c + 1) (n + 1) := rfl
      rw [hstep, ih (c + 1)]
      have harith : c + 1 + n = c + (n + 1) := by omega
      rw [harith]

theorem runChecks_in_window (cfg : Config) (user : Option User) (ip : String)
    (t0 : Int) (ts : List Int) :
    ∀ c : Nat, c ≤ getLimit cfg.limits user →
      (∀ t ∈ ts, t - t0 < cfg.windowSize) →
      runChecks cfg user ip [(getKey user ip, ⟨c, t0⟩)] ts =
        ([(getKey user ip, ⟨min (c + ts.length) (getLimit cfg.limits user), t0⟩)],
         nthResults cfg user t0 c ts.length) := by
  induction ts with
  | nil =>
      intro c hc _
      simp [runChecks, Nat.min_eq_left hc, nthResults]
  | cons t ts ih =>
      intro c hc hts
      have hget : Store.get [(getKey user ip, (⟨c, t0⟩ : WindowState))]
          (getKey user ip) = some ⟨c, t0⟩ := by simp [Store.get]
      have hin : t - t0 < cfg.windowSize := hts t (List.mem_cons_self _ _)
      have hstep := checkLimit_active cfg _ user ip t c t0 hget hin
      by_cases hcL : c < getLimit cfg.limits user
      · have hset : Store.set [(getKey user ip, (⟨c, t0⟩ : WindowState))]
            (getKey user ip) ⟨c + 1, t0⟩ = [(getKey user ip, ⟨c + 1, t0⟩)] := by
          simp [Store.set]
        have ih' := ih (c + 1) hcL fun t' ht' => hts t' (List.mem_cons_of_mem _ ht')
        have harith : c + 1 + ts.length = c + (ts.length + 1) := by omega
        simp only [runChecks, hstep, hcL, if_true, hset, ih', harith,
          List.length_cons, nthResults]
        simp [nthResult, hcL]
      · have hceq : c = getLimit cfg.limits user := Nat.le_antisymm hc (not_lt.mp hcL)
        have ih' := ih c hc fun t' ht' => hts t' (List.mem_cons_of_mem _ ht')
        have hmin : min (c + ts.length) (getLimit cfg.limits user) =
            min (c + (ts.length + 1)) (getLimit cfg.limits user) := by omega
        have hshift := nthResults_shift cfg user t0 ts.length c (by omega)
        simp only [runChecks, hstep, hcL, if_false, ih', hmin, hshift,
          List.length_cons, nthResults]
        simp [nthResult, hcL]

theorem runChecks_from_empty (cfg : Config) (user : Option User) (ip : String)
    (t0 : Int) (ts : List Int)
    (hts : ∀ t ∈ ts, t - t0 < cfg.windowSize) :
    runChecks cfg user ip [] (t0 :: ts) =
      ([(getKey user ip, ⟨min (ts.length + 1) (getLimit cfg.limits user), t0⟩)],
       nthResults cfg user t0 0 (ts.length + 1)) := by
  have hget : Store.get ([] : Store) (getKey user ip) = none := rfl
  have hstep := checkLimit_new cfg [] user ip t0 (Or.inl hget)
  by_cases hL : 0 < getLimit cfg.limits user
  · have ih := runChecks_in_window cfg user ip t0 ts 1 hL hts
    have hmin : min (1 + ts.length) (getLimit cfg.limits user) =
        min (ts.length + 1) (getLimit cfg.limits user) := by omega
    simp only [runChecks, hstep, hL, if_true, Store.set, ih, hmin,
      List.length_cons, nthResults]
    simp [nthResult, hL]
  · have hL0 : getLimit cfg.limits user = 0 := by omega
    have ih := runChecks_in_window cfg user ip t0 ts 0 (by omega) hts
    have hmin : min (0 + ts.length) (getLimit cfg.limits user) =
        min (ts.length + 1) (getLimit cfg.limits user) := by omega
    have hshift := nthResults_shift cfg user t0 ts.length 0 (by omega)
    simp only [runChecks, hstep, hL, if_false, Store.set, ih, hmin, hshift,
      List.length_cons, nthResults]
    simp [nthResult, hL]

/-- The default configuration of the source constructor: guest 3, free 10,
premium 50, window one hour in milliseconds. -/
def sampleCfg : Config := ⟨⟨3, 10, 50⟩, 3600000⟩

/-- Claim C1: for a fixed identity and origin address mapping to one key
with tier limit L, starting from the empty store and with all calls inside
one window, every one of the first N calls with N ≤ L is admitted and the
N-th call returns remaining = L - N, while the (L+1)-th call in the same
window is denied with remaining = 0. -/
theorem monotonic_consumption (cfg : Config) (user : Option User) (ip : String)
    (t0 : Int) (ts : List Int)
    (hts : ∀ t ∈ ts, t - t0 < cfg.windowSize) :
    (ts.length + 1 ≤ getLimit cfg.limits user →
      (∀ r ∈ (runChecks cfg user ip [] (t0 :: ts)).2, r.allowed = true) ∧
      ∀ r, (runChecks cfg user ip [] (t0 :: ts)).2.getLast? = some r →
        r.remaining = getLimit cfg.limits user - (ts.length + 1)) ∧
    (ts.length + 1 = getLimit cfg.limits user + 1 →
      ∀ r, (runChecks cfg user ip [] (t0 :: ts)).2.getLast? = some r →
        r.allowed = false ∧ r.remaining = 0) := by
  have hrun := runChecks_from_empty cfg user ip t0 ts hts
  constructor
  · intro hN
    constructor
    · intro r hr
      simp only [hrun] at hr
      exact nthResults_all_allowed cfg user t0 (ts.length + 1) 0 (by omega) r hr
    · intro r hr
      simp only [hrun, nthResults_getLast cfg user t0 ts.length 0,
        Option.some.injEq] at hr
      subst hr
      have hlt : 0 + ts.length < getLimit cfg.limits user := by omega
      simp [nthResult, hlt]
      omega
  · intro hN r hr
    simp only [hrun, nthResults_getLast cfg user t0 ts.length 0,
      Option.some.injEq] at hr
    subst hr
    have hge : ¬ ts.length < getLimit cfg.limits user := by omega
    constructor
    · simp [nthResult, hge]
    · simp [nthResult, hge]
      omega

theorem monotonic_consumption_witness :
    (⟨false, 0, 3, 3600000, "guest"⟩ : CheckResult).allowed = false ∧
    (⟨false, 0, 3, 3600000, "guest"⟩ : CheckResult).remaining = 0 :=
  (monotonic_consumption sampleCfg none "10.0.0.1" 0 [1, 2, 3]
    (by decide)).2 (by decide) ⟨false, 0, 3, 3600000, "guest"⟩ (by decide)

/-- Claim C4 counterexample: an identity with non-guest type and the
non-null but empty id falls back to the ip key, although the claim requires
the user key whenever the id is non-null. -/
theorem getKey_empty_id_counterexample :
    (some "" : Option String) ≠ none ∧
    getKey (some ⟨"free", some ""⟩) "1.2.3.4" = "ip:1.2.3.4" ∧
    getKey (some ⟨"free", some ""⟩) "1.2.3.4" ≠ "user:" ++ "" := by
  refine ⟨by decide, by decide, by decide⟩

/-- Claim C4 (amended): getKey returns "user:" followed by the id exactly
when the identity is present, its type is not "guest" and its id is
non-null and non-empty (JavaScript-truthy); in every other case it returns
"ip:" followed by the origin address. -/
theorem getKey_cases (user : Option User) (ip : String) :
    (∀ u s, user = some u → u.type ≠ "guest" → u.id = some s → s ≠ "" →
      getKey user ip = "user:" ++ s) ∧
    ((match user with
      | some u => u.type = "guest" ∨ u.id = none ∨ u.id = some ""
      | none => True) →
      getKey user ip = "ip:" ++ ip) := by
  constructor
  · intro u s hu ht hid hs
    subst hu
    simp [getKey, hid, ht, hs]
  · intro h
    cases user with
    | none => rfl
    | some u =>
        cases hid : u.id with
        | none => simp [getKey, hid]
        | some s =>
            rcases h with ht | h' | h'
            · simp [getKey, hid, ht]
            · rw [hid] at h'
              exact absurd h' (by simp)
            · rw [hid] at h'
              have hs : s = "" := Option.some.inj h'
              simp [getKey, hid, hs]

theorem getKey_cases_witness :
    getKey (some ⟨"free", some "7"⟩) "1.2.3.4" = "user:" ++ "7" :=
  (getKey_cases (some ⟨"free", some "7"⟩) "1.2.3.4").1 ⟨"free", some "7"⟩ "7" rfl
    (by decide) rfl (by decide)

/-- A configuration whose free quota is zero while the guest quota is 3. -/
def zeroFreeCfg : Config := ⟨⟨3, 0, 50⟩, 3600000⟩

/-- A configuration whose guest quota is zero. -/
def zeroGuestCfg : Config := ⟨⟨0, 10, 50⟩, 3600000⟩

/-- Claim C5 counterexample: with the free tier quota configured as 0 but
the guest quota 3, a free user's first checkLimit call on the empty store
is admitted, because getLimit's falsy fallback replaces the zero quota by
the guest quota. -/
theorem zero_tier_quota_counterexample :
    zeroFreeCfg.limits.free = 0 ∧
    userTypeOf (some ⟨"free", some "7"⟩) = "free" ∧
    (checkLimit zeroFreeCfg [] (some ⟨"free", some "7"⟩) "1.2.3.4" 0).1.allowed = true := by
  refine ⟨rfl, by decide, by decide⟩

/-- Claim C5 (amended): if the limit that getLimit resolves for the request
is 0 — which by the falsy fallback requires the guest quota to be 0 —
checkLimit returns allowed = false for every store state. -/
theorem resolved_limit_zero_never_admits (cfg : Config) (s : Store)
    (user : Option User) (ip : String) (now : Int)
    (h : getLimit cfg.limits user = 0) :
    (checkLimit cfg s user ip now).1.allowed = false := by
  simp [checkLimit, h]

theorem resolved_limit_zero_never_admits_witness :
    getLimit zeroGuestCfg.limits none = 0 ∧
    (checkLimit zeroGuestCfg [] none "9.9.9.9" 0).1.allowed = false :=
  ⟨by decide, resolved_limit_zero_never_admits zeroGuestCfg [] none "9.9.9.9" 0 (by decide)⟩

/-- A free-tier identity whose id is missing, so it is tracked under the
same ip key that guests use but with the free limit. -/
def freeNoId : Option User := some ⟨"free", none⟩

/-- Ten free-tier calls that saturate the ip key at count 10, followed by
one guest call for the same key under limit 3. -/
def mixedOps : List Op :=
  List.replicate 10 (Op.check freeNoId "9.9.9.9" 0) ++ [Op.check none "9.9.9.9" 1]

/-- Claim C2 counterexample: after ten admitted free-tier calls on the ip
key, a guest call (limit 3) is the last access to that key, yet the stored
count 10 exceeds 3. -/
theorem count_can_exceed_last_access_limit :
    Store.get (runOps sampleCfg [] mixedOps) "ip:9.9.9.9" = some ⟨10, 0⟩ ∧
    lastCheckLimitFor sampleCfg "ip:9.9.9.9" mixedOps = some 3 ∧
    ¬ (10 ≤ 3) := by
  refine ⟨by decide, by decide, by decide⟩

/-- Claim C2 (amended): no admission by checkLimit ever makes a stored
count exceed the limit that call used: after every admitted call, the
derived key's stored count is at most the limit resolved for that call. -/
theorem admission_never_exceeds_limit (cfg : Config) (s : Store)
    (user : Option User) (ip : String) (now : Int)
    (h : (checkLimit cfg s user ip now).1.allowed = true) :
    ∃ w, Store.get (checkLimit cfg s user ip now).2 (getKey user ip) = some w ∧
      w.count ≤ getLimit cfg.limits user := by
  cases hget : Store.get s (getKey user ip) with
  | none =>
      have hstep := checkLimit_new cfg s user ip now (Or.inl hget)
      rw [hstep] at h ⊢
      simp only [decide_eq_true_eq] at h
      refine ⟨⟨1, now⟩, ?_, by show 1 ≤ getLimit cfg.limits user; omega⟩
      simp only [h, if_true]
      exact Store.get_set_self _ _ _
  | some w =>
      obtain ⟨c, t0⟩ := w
      by_cases hexp : cfg.windowSize ≤ now - t0
      · have hstep := checkLimit_new cfg s user ip now (Or.inr ⟨⟨c, t0⟩, hget, hexp⟩)
        rw [hstep] at h ⊢
        simp only [decide_eq_true_eq] at h
        refine ⟨⟨1, now⟩, ?_, by show 1 ≤ getLimit cfg.limits user; omega⟩
        simp only [h, if_true]
        exact Store.get_set_self _ _ _
      · have hstep := checkLimit_active cfg s user ip now c t0 hget (by omega)
        rw [hstep] at h ⊢
        simp only [decide_eq_true_eq] at h
        refine ⟨⟨c + 1, t0⟩, ?_, by show c + 1 ≤ getLimit cfg.limits user; omega⟩
        simp only [h, if_true]
        exact Store.get_set_self _ _ _

theorem admission_never_exceeds_limit_witness :
    ∃ w, Store.get (checkLimit sampleCfg [] none "9.9.9.9" 0).2 (getKey none "9.9.9.9") = some w ∧
      w.count ≤ getLimit sampleCfg.limits none :=
  admission_never_exceeds_limit sampleCfg [] none "9.9.9.9" 0 (by decide)

/-- Claim C3: with the stored count at limit - 1 inside the window, the two
serialization orders that the single-threaded runtime permits for two
racing checkLimit calls on the same key admit exactly the first of the two,
and the final stored count equals the limit (no overshoot, no lost
update). -/
theorem race_at_boundary_admits_exactly_one (cfg : Config) (s : Store)
    (user : Option User) (ip : String) (t1 t2 ws : Int)
    (hL : 0 < getLimit cfg.limits user)
    (hget : Store.get s (getKey user ip) = some ⟨getLimit cfg.limits user - 1, ws⟩)
    (h1 : t1 - ws < cfg.windowSize) (h2 : t2 - ws < cfg.windowSize) :
    ((checkLimit cfg s user ip t1).1.allowed = true ∧
     (checkLimit cfg (checkLimit cfg s user ip t1).2 user ip t2).1.allowed = false) ∧
    Store.get (checkLimit cfg (checkLimit cfg s user ip t1).2 user ip t2).2
      (getKey user ip) = some ⟨getLimit cfg.limits user, ws⟩ := by
  have hc1 : getLimit cfg.limits user - 1 < getLimit cfg.limits user := by omega
  have hstep1 := checkLimit_active cfg s user ip t1
    (getLimit cfg.limits user - 1) ws hget h1
  have harith : getLimit cfg.limits user - 1 + 1 = getLimit cfg.limits user := by omega
  rw [hstep1]
  simp only [hc1, if_true, harith]
  have hget2 : Store.get
      (Store.set s (getKey user ip) ⟨getLimit cfg.limits user, ws⟩)
      (getKey user ip) = some ⟨getLimit cfg.limits user, ws⟩ :=
    Store.get_set_self _ _ _
  have hstep2 := checkLimit_active cfg _ user ip t2
    (getLimit cfg.limits user) ws hget2 h2
  rw [hstep2]
  simp [hget2]

theorem race_at_boundary_admits_exactly_one_witness :
    (((checkLimit sampleCfg [("ip:a", ⟨2, 0⟩)] none "a" 5).1.allowed = true ∧
      (checkLimit sampleCfg (checkLimit sampleCfg [("ip:a", ⟨2, 0⟩)] none "a" 5).2
        none "a" 6).1.allowed = false) ∧
     Store.get (checkLimit sampleCfg
        (checkLimit sampleCfg [("ip:a", ⟨2, 0⟩)] none "a" 5).2 none "a" 6).2
       (getKey none "a") = some ⟨getLimit sampleCfg.limits none, 0⟩) :=
  race_at_boundary_admits_exactly_one sampleCfg [("ip:a", ⟨2, 0⟩)] none "a" 5 6 0
    (by decide) (by decide) (by decide) (by decide)

/-- Claim C7: once a key's stored window has expired, the next checkLimit
call behaves as the first call of a fresh window: the old count is
discarded, windowStart becomes now, admission depends only on the limit
being positive, and an admitted call returns remaining = limit - 1 with
the reset time anchored at now, regardless of prior saturation. -/
theorem window_reset_fresh (cfg : Config) (s : Store) (user : Option User)
    (ip : String) (now : Int) (w : WindowState)
    (hget : Store.get s (getKey user ip) = some w)
    (hexp : cfg.windowSize ≤ now - w.windowStart) :
    Store.get (checkLimit cfg s user ip now).2 (getKey user ip) =
      some ⟨if 0 < getLimit cfg.limits user then 1 else 0, now⟩ ∧
    (checkLimit cfg s user ip now).1.allowed = decide (0 < getLimit cfg.limits user) ∧
    ((checkLimit cfg s user ip now).1.allowed = true →
      (checkLimit cfg s user ip now).1.remaining = getLimit cfg.limits user - 1) ∧
    (checkLimit cfg s user ip now).1.resetTime = now + cfg.windowSize := by
  have hstep := checkLimit_new cfg s user ip now (Or.inr ⟨w, hget, hexp⟩)
  rw [hstep]
  refine ⟨Store.get_set_self _ _ _, rfl, ?_, rfl⟩
  intro h
  simp only [decide_eq_true_eq] at h
  simp [h]

theorem window_reset_fresh_witness :
    Store.get (checkLimit sampleCfg [("ip:a", ⟨3, 0⟩)] none "a" 3600000).2
      (getKey none "a") =
      some ⟨if 0 < getLimit sampleCfg.limits none then 1 else 0, 3600000⟩ ∧
    (checkLimit sampleCfg [("ip:a", ⟨3, 0⟩)] none "a" 3600000).1.allowed =
      decide (0 < getLimit sampleCfg.limits none) ∧
    ((checkLimit sampleCfg [("ip:a", ⟨3, 0⟩)] none "a" 3600000).1.allowed = true →
      (checkLimit sampleCfg [("ip:a", ⟨3, 0⟩)] none "a" 3600000).1.remaining =
        getLimit sampleCfg.limits none - 1) ∧
    (checkLimit sampleCfg [("ip:a", ⟨3, 0⟩)] none "a" 3600000).1.resetTime =
      3600000 + sampleCfg.windowSize :=
  window_reset_fresh sampleCfg [("ip:a", ⟨3, 0⟩)] none "a" 3600000 ⟨3, 0⟩
    (by decide) (by decide)

/-- Claim C8: reset deletes the derived key's entry outright, is a no-op on
an already-absent key, is idempotent, and after a reset the next getStatus
reports the full limit while the next checkLimit behaves as for a
brand-new key, returning remaining = limit - 1 on admission. -/
theorem reset_idempotent_fresh (cfg : Config) (s : Store) (user : Option User)
    (ip : String) (now : Int) :
    Store.get (reset s user ip) (getKey user ip) = none ∧
    (Store.get s (getKey user ip) = none → reset s user ip = s) ∧
    reset (reset s user ip) user ip = reset s user ip ∧
    (getStatus cfg (reset s user ip) user ip now).remaining = getLimit cfg.limits user ∧
    (checkLimit cfg (reset s user ip) user ip now).1.allowed =
      decide (0 < getLimit cfg.limits user) ∧
    ((checkLimit cfg (reset s user ip) user ip now).1.allowed = true →
      (checkLimit cfg (reset s user ip) user ip now).1.remaining =
        getLimit cfg.limits user - 1) := by
  have hnone : Store.get (reset s user ip) (getKey user ip) = none := by
    simp [reset, Store.get_delete]
  have hstep := checkLimit_new cfg (reset s user ip) user ip now (Or.inl hnone)
  refine ⟨hnone, fun h => Store.delete_absent s _ h, Store.delete_delete s _, ?_, ?_, ?_⟩
  · simp [getStatus, hnone]
  · rw [hstep]
  · rw [hstep]
    intro h
    simp only [decide_eq_true_eq] at h
    simp [h]

theorem reset_idempotent_fresh_witness :
    (checkLimit sampleCfg (reset [("ip:a", ⟨2, 0⟩)] none "a") none "a" 0).1.remaining =
      getLimit sampleCfg.limits none - 1 :=
  (reset_idempotent_fresh sampleCfg [("ip:a", ⟨2, 0⟩)] none "a" 0).2.2.2.2.2 (by decide)

/-- Claim C10: a denied checkLimit call on an unexpired, saturated window
returns allowed = false and leaves the entire store — that key's count and
windowStart as well as every other entry — exactly as it was. -/
theorem denied_call_frame (cfg : Config) (s : Store) (user : Option User)
    (ip : String) (now : Int) (w : WindowState)
    (hget : Store.get s (getKey user ip) = some w)
    (hin : now - w.windowStart < cfg.windowSize)
    (hsat : getLimit cfg.limits user ≤ w.count) :
    (checkLimit cfg s user ip now).1.allowed = false ∧
    (checkLimit cfg s user ip now).2 = s := by
  obtain ⟨c, t0⟩ := w
  have hstep := checkLimit_active cfg s user ip now c t0 hget hin
  rw [hstep]
  have hc : ¬ c < getLimit cfg.limits user := by
    simp only at hsat
    omega
  simp [hc]

theorem denied_call_frame_witness :
    (checkLimit sampleCfg [("ip:a", ⟨3, 0⟩), ("ip:b", ⟨1, 2⟩)] none "a" 5).1.allowed = false ∧
    (checkLimit sampleCfg [("ip:a", ⟨3, 0⟩), ("ip:b", ⟨1, 2⟩)] none "a" 5).2 =
      [("ip:a", ⟨3, 0⟩), ("ip:b", ⟨1, 2⟩)] :=
  denied_call_frame sampleCfg [("ip:a", ⟨3, 0⟩), ("ip:b", ⟨1, 2⟩)] none "a" 5 ⟨3, 0⟩
    (by decide) (by decide) (by decide)

/-- Status-only operations, as a block to interleave between checks. -/
def statusOps (qs : List (Option User × String × Int)) : List Op :=
  qs.map fun q => Op.status q.1 q.2.1 q.2.2

/-- Claim C6: getStatus never mutates the store: any number of getStatus
operations leave the store identical, so a later checkLimit's admission
outcome and result are unchanged; and on an absent or expired key,
getStatus reports the full limit with resetTime = now + windowSize without
writing a fresh state back. -/
theorem getStatus_non_mutation (cfg : Config) (s : Store) (user : Option User)
    (ip : String) (now : Int) (qs : List (Option User × String × Int)) :
    runOps cfg s (statusOps qs) = s ∧
    checkLimit cfg (runOps cfg s (statusOps qs)) user ip now =
      checkLimit cfg s user ip now ∧
    ((∀ w, Store.get s (getKey user ip) = some w →
        cfg.windowSize ≤ now - w.windowStart) →
      getStatus cfg s user ip now =
        ⟨getLimit cfg.limits user, getLimit cfg.limits user,
         now + cfg.windowSize, userTypeOf user⟩) := by
  have hrun : runOps cfg s (statusOps qs) = s := by
    induction qs with
    | nil => rfl
    | cons q qs ih => simpa [statusOps, runOps, stepStore] using ih
  refine ⟨hrun, by rw [hrun], ?_⟩
  intro h
  cases hget : Store.get s (getKey user ip) with
  | none => simp [getStatus, hget]
  | some w =>
      have hexp := h w hget
      simp [getStatus, hget, hexp]

theorem getStatus_non_mutation_witness :
    getStatus sampleCfg [("ip:c", ⟨2, 0⟩)] none "c" 3600000 =
      ⟨getLimit sampleCfg.limits none, getLimit sampleCfg.limits none,
       3600000 + sampleCfg.windowSize, userTypeOf none⟩ :=
  (getStatus_non_mutation sampleCfg [("ip:c", ⟨2, 0⟩)] none "c" 3600000
    [(none, "b", 0)]).2.2
    (by
      intro w hw
      have hv : some (⟨2, 0⟩ : WindowState) = some w := by
        rw [show Store.get [("ip:c", (⟨2, 0⟩ : WindowState))] (getKey none "c") =
          some ⟨2, 0⟩ from rfl] at hw
        exact hw
      rw [← Option.some.inj hv]
      decide)

theorem Store.get_foldl_delete (ks : List String) :
    ∀ (s : Store) (k : String),
      Store.get (ks.foldl Store.delete s) k =
        if k ∈ ks then none else Store.get s k := by
  induction ks with
  | nil => intro s k; simp
  | cons k0 ks ih =>
      intro s k
      simp only [List.foldl_cons, ih, Store.get_delete]
      by_cases h : k = k0
      · simp [h]
      · simp [h]

/-- Claim C9: cleanup deletes from the store exactly the keys whose window
has fully expired at time now; an unexpired entry survives with its count
and windowStart unchanged, and an absent key stays absent. -/
theorem cleanup_deletes_exactly_expired (cfg : Config) (s : Store) (now : Int)
    (k : String) (hwf : Store.WF s) :
    Store.get (cleanup cfg s now) k =
      match Store.get s k with
      | some w => if cfg.windowSize ≤ now - w.windowStart then none else some w
      | none => none := by
  cases hget : Store.get s k with
  | none =>
      have hnotin : k ∉ ((s.filter fun kv =>
          cfg.windowSize ≤ now - kv.2.windowStart).map Prod.fst) := by
        intro hk
        obtain ⟨kv, hkv, hfst⟩ := List.mem_map.mp hk
        obtain ⟨k1, v1⟩ := kv
        have hkv1 : (k1, v1) ∈ s := (List.mem_filter.mp hkv).1
        simp only at hfst
        subst hfst
        exact Store.get_none_not_mem s k1 v1 hget hkv1
      simp [cleanup, Store.get_foldl_delete, hnotin, hget]
  | some w =>
      by_cases hexp : cfg.windowSize ≤ now - w.windowStart
      · have hin : k ∈ ((s.filter fun kv =>
            cfg.windowSize ≤ now - kv.2.windowStart).map Prod.fst) :=
          List.mem_map.mpr ⟨(k, w),
            List.mem_filter.mpr ⟨Store.get_mem s k w hget, by simpa using hexp⟩, rfl⟩
        simp [cleanup, Store.get_foldl_delete, hin, hget, hexp]
      · have hnotin : k ∉ ((s.filter fun kv =>
            cfg.windowSize ≤ now - kv.2.windowStart).map Prod.fst) := by
          intro hk
          obtain ⟨kv, hkv, hfst⟩ := List.mem_map.mp hk
          obtain ⟨k1, v1⟩ := kv
          obtain ⟨hmem, hp⟩ := List.mem_filter.mp hkv
          simp only at hfst
          subst hfst
          have hv := Store.mem_get_of_wf s k1 v1 hwf hmem
          rw [hget] at hv
          have hv1 : v1 = w := (Option.some.inj hv).symm
          subst hv1
          simp only [decide_eq_true_eq] at hp
          exact hexp hp
        simp [cleanup, Store.get_foldl_delete, hnotin, hget, hexp]

theorem cleanup_deletes_exactly_expired_witness :
    Store.get (cleanup ⟨⟨3, 10, 50⟩, 50⟩ [("a", ⟨1, 0⟩), ("b", ⟨2, 100⟩)] 60) "a" =
      match Store.get [("a", ⟨1, 0⟩), ("b", ⟨2, 100⟩)] "a" with
      | some w => if (⟨⟨3, 10, 50⟩, 50⟩ : Config).windowSize ≤ 60 - w.windowStart
          then none else some w
      | none => none :=
  cleanup_deletes_exactly_expired ⟨⟨3, 10, 50⟩, 50⟩ [("a", ⟨1, 0⟩), ("b", ⟨2, 100⟩)]
    60 "a" (by decide)

example : getKey (some ⟨"free", some "7"⟩) "1.2.3.4" = "user:7" := by decide
example : getKey (some ⟨"free", some ""⟩) "1.2.3.4" = "ip:1.2.3.4" := by decide
example : getKey none "1.2.3.4" = "ip:1.2.3.4" := by decide
example : getLimit ⟨3, 0, 50⟩ (some ⟨"free", some "7"⟩) = 3 := by decide
example :
    (checkLimit ⟨⟨3, 10, 50⟩, 3600000⟩ [] none "a" 5).1.remaining = 2 := by decide
example :
    (checkLimit ⟨⟨3, 10, 50⟩, 3600000⟩ [] none "a" 5).2 = [("ip:a", ⟨1, 5⟩)] := by decide
